import Mathlib

/-!
Shallow embedding of the rating / season-simulation engine of the
birdland-metrics repository.

Source files embedded (paths relative to the repository root):
  * `data-pipelines/layers/mlb-pipeline-common/python/mlb_common/config.py`
  * `data-pipelines/layers/mlb-pipeline-common/python/mlb_common/elo.py`
  * `data-pipelines/layers/mlb-pipeline-common/python/mlb_common/fip.py`
  * `data-pipelines/functions/mlb-elo-compute/lambda_function.py`
  * `data-pipelines/functions/mlb-season-projections/lambda_function.py`
  * `data-pipelines/scripts/backtest-fade-curves.py`
  * `data-pipelines/model-2026-updates/enhanced_model.py`

Python floats are modelled by `ℝ` (the transcendental functions `10 ** x`,
`math.log`, `math.exp`, `math.cos` become `Real.rpow`, `Real.log`,
`Real.exp`, `Real.cos`); where a claim is specifically about IEEE-754
non-finite values a small explicit float model (`FloatModel.FVal`) is used.
Python dicts of team ratings that are mutated in place are modelled either
as a key-set plus valuation (`EloDict`, for the replay loops that write) or
as association lists (for the loops that only read).
-/

/-- One schedule row (`schedule_*.csv`): home/away team codes, scores
(`none` = not yet played, pandas `NaN`), optional starting-pitcher ids
(`homeStartingPitcherId` / `awayStartingPitcherId`). -/
structure Game where
  homeTeam : String
  awayTeam : String
  homeScore : Option ℤ
  awayScore : Option ℤ
  homeSp : Option ℤ := none
  awaySp : Option ℤ := none

/-- A Python dict `team -> elo` whose key set never changes during a replay
(the replay loops only assign to keys that are already present): a key set
plus a valuation. -/
structure EloDict where
  keys : Finset String
  val : String → ℝ

namespace MlbCommon

/-- `ELO_K` from `mlb_common/config.py` (env default 20). -/
def ELO_K : ℝ := 20

/-- `ELO_HFA` from `mlb_common/config.py` (env default 55). -/
def ELO_HFA : ℝ := 55

/-- `ELO_INIT` from `mlb_common/config.py` (env default 1500). -/
def ELO_INIT : ℝ := 1500

/-- `MOV_MULTIPLIER` from `mlb_common/config.py` (env default 2.2). -/
def MOV_MULTIPLIER : ℝ := 2.2

/-- `FIP_WEIGHT` from `mlb_common/config.py` (env default 50). -/
def FIP_WEIGHT : ℝ := 50

/-- `PROB_SHRINKAGE` from `mlb_common/config.py` (env default 0.16). -/
def PROB_SHRINKAGE : ℝ := 0.16

/-- `mlb_common/elo.py::expected_score`:
`1 / (1 + 10 ** ((elo_b - (elo_a + hfa)) / 400))`. -/
noncomputable def expected_score (elo_a elo_b hfa : ℝ) : ℝ :=
  1 / (1 + (10 : ℝ) ^ ((elo_b - (elo_a + hfa)) / 400))

/-- `mlb_common/elo.py::margin_of_victory_mult`:
`min(log(|score_diff| + 1) * (MOV_MULTIPLIER / (0.001 * |elo_diff| + MOV_MULTIPLIER)), MOV_CAP)`.
`MOV_CAP` is imported there from `mlb_common/config.py`, which does not
define it; it is therefore taken as a parameter here. -/
noncomputable def margin_of_victory_mult (movCap score_diff elo_diff : ℝ) : ℝ :=
  min (Real.log (|score_diff| + 1) *
    (MOV_MULTIPLIER / (0.001 * |elo_diff| + MOV_MULTIPLIER))) movCap

/-- `mlb_common/elo.py::update_elo`: the rating shift
`k * mov_mult * (actual - expected)` (the `elo` argument is unused by the
source function as well). -/
noncomputable def update_elo (elo expected actual k mov_mult : ℝ) : ℝ :=
  k * mov_mult * (actual - expected)

/-- One entry of the pitcher-FIP table built by
`mlb_common/fip.py::fetch_pitcher_fip`: `{'fip': ..., 'ip': ...}`
(the `name` field plays no role in the adjustment). -/
structure FipInfo where
  fip : ℝ
  ip : ℝ

/-- The dict `pitcher_id -> {'fip', 'ip'}`. -/
abbrev FipDict := List (ℤ × FipInfo)

/-- The starter-FIP resolution inside `mlb_common/fip.py::fip_adjustment`:
`fip_dict[pid]['fip'] if pid and pid in fip_dict else lg_fip`
(`pid` is falsy in Python when it is `None` or `0`). -/
def fip_starter (fd : FipDict) (pid : Option ℤ) (lg_fip : ℝ) : ℝ :=
  match pid with
  | some i =>
      if i ≠ 0 then
        match fd.lookup i with
        | some info => info.fip
        | none => lg_fip
      else lg_fip
  | none => lg_fip

/-- `mlb_common/fip.py::fip_adjustment`: ELO point adjustments
`((lg_fip - home_fip) * FIP_WEIGHT, (lg_fip - away_fip) * FIP_WEIGHT)`. -/
noncomputable def fip_adjustment (home_pitcher_id away_pitcher_id : Option ℤ)
    (fd : FipDict) (lg_fip : ℝ) : ℝ × ℝ :=
  ((lg_fip - fip_starter fd home_pitcher_id lg_fip) * FIP_WEIGHT,
   (lg_fip - fip_starter fd away_pitcher_id lg_fip) * FIP_WEIGHT)

/-- `mlb_common/fip.py::apply_shrinkage`:
`PROB_SHRINKAGE + (1 - 2 * PROB_SHRINKAGE) * raw_prob`.  The constant is
read from the environment (`config.py`, default 0.16), so it is taken as
the parameter `s` here; the deployed value is `PROB_SHRINKAGE`. -/
noncomputable def apply_shrinkage (s raw_prob : ℝ) : ℝ :=
  s + (1 - 2 * s) * raw_prob

end MlbCommon

namespace EloCompute

/-- The per-game body of
`functions/mlb-elo-compute/lambda_function.py::lambda_handler`
(lines 75-91).  `none` models the explicit unknown-team branch
(`if home not in team_elo or away not in team_elo: logger.warning(...);
continue`): the game is skipped and no rating is written.  Otherwise the
two ratings are replaced by `elo_home + elo_shift` and
`elo_away - elo_shift`.  `movCap` stands for the `MOV_CAP` configuration
value (see `MlbCommon.margin_of_victory_mult`). -/
noncomputable def gameUpdate (movCap : ℝ) (d : EloDict) (g : Game) :
    Option EloDict :=
  if g.homeTeam ∈ d.keys ∧ g.awayTeam ∈ d.keys then
    let elo_home := d.val g.homeTeam
    let elo_away := d.val g.awayTeam
    let prob_home := MlbCommon.expected_score elo_home elo_away MlbCommon.ELO_HFA
    let result_home : ℝ := if g.homeScore.getD 0 > g.awayScore.getD 0 then 1 else 0
    let score_diff : ℝ := |((g.homeScore.getD 0 : ℝ)) - ((g.awayScore.getD 0 : ℝ))|
    let mov := MlbCommon.margin_of_victory_mult movCap score_diff (elo_home - elo_away)
    let shift := MlbCommon.update_elo elo_home prob_home result_home MlbCommon.ELO_K mov
    some ⟨d.keys,
      Function.update (Function.update d.val g.homeTeam (elo_home + shift))
        g.awayTeam (elo_away - shift)⟩
  else none

/-- The effect of one loop iteration on the `team_elo` dict: a skipped game
(`continue`) leaves the dict unchanged. -/
noncomputable def stepGame (movCap : ℝ) (d : EloDict) (g : Game) : EloDict :=
  (gameUpdate movCap d g).getD d

/-- `result_home = 1 if home_score > away_score else 0`
(`mlb-elo-compute/lambda_function.py` line 83). -/
def result_home (home_score away_score : ℤ) : ℝ :=
  if home_score > away_score then 1 else 0

end EloCompute

namespace Backtest

/-- `K = 6` (`scripts/backtest-fade-curves.py` line 32). -/
def K : ℝ := 6

/-- `HFA = 55` (`scripts/backtest-fade-curves.py` line 33). -/
def HFA : ℝ := 55

/-- `MOV_MULTIPLIER = 2.2` (`scripts/backtest-fade-curves.py` line 34). -/
def MOV_MULTIPLIER : ℝ := 2.2

/-- `FADE_GAMES = 100` (`scripts/backtest-fade-curves.py` line 35). -/
def FADE_GAMES : ℕ := 100

/-- `scripts/backtest-fade-curves.py::expected_score`. -/
noncomputable def expected_score (elo_a elo_b hfa : ℝ) : ℝ :=
  1 / (1 + (10 : ℝ) ^ ((elo_b - (elo_a + hfa)) / 400))

/-- `scripts/backtest-fade-curves.py::mov_mult`; the module-level `MOV_CAP`
(default `None`, set per run) is the `movCap` parameter. -/
noncomputable def mov_mult (movCap : Option ℝ) (score_diff elo_diff : ℝ) : ℝ :=
  let raw := Real.log (|score_diff| + 1) *
    (MOV_MULTIPLIER / (0.001 * |elo_diff| + MOV_MULTIPLIER))
  match movCap with
  | some c => min raw c
  | none => raw

/-- `scripts/backtest-fade-curves.py::elo_shift`: `K * mov * (actual - exp)`
(the `elo` argument is unused by the source function as well). -/
noncomputable def elo_shift (elo exp actual mov : ℝ) : ℝ :=
  K * mov * (actual - exp)

/-- `actual_h = 1.0 if row["homeScore"] > row["awayScore"] else 0.0`
(`scripts/backtest-fade-curves.py` line 153). -/
def actual_h (homeScore awayScore : ℤ) : ℝ :=
  if homeScore > awayScore then 1 else 0

/-- The body of one iteration of
`scripts/backtest-fade-curves.py::replay_elo_to_date` (lines 144-158) on
the `current_elo` dict: skip the game when either team is missing,
otherwise set `current_elo[home] = h_elo + shift` and
`current_elo[away] = a_elo - shift`.  (The `games_played` counters kept by
the same loop do not feed back into the ratings.) -/
noncomputable def replayStep (movCap : Option ℝ) (d : EloDict) (g : Game) : EloDict :=
  if g.homeTeam ∈ d.keys ∧ g.awayTeam ∈ d.keys then
    let h_elo := d.val g.homeTeam
    let a_elo := d.val g.awayTeam
    let exp_h := expected_score h_elo a_elo HFA
    let score_diff : ℝ := |((g.homeScore.getD 0 : ℝ)) - ((g.awayScore.getD 0 : ℝ))|
    let elo_diff := h_elo + HFA - a_elo
    let m := mov_mult movCap score_diff elo_diff
    let shift := elo_shift h_elo exp_h (actual_h (g.homeScore.getD 0) (g.awayScore.getD 0)) m
    ⟨d.keys,
      Function.update (Function.update d.val g.homeTeam (h_elo + shift))
        g.awayTeam (a_elo - shift)⟩
  else d

/-- The four fade-curve shapes accepted by
`scripts/backtest-fade-curves.py::fade_pct` (any other string raises
`ValueError`). -/
inductive FadeCurve
  | linear
  | cosine
  | sigmoid
  | quadratic
  deriving DecidableEq

/-- `scripts/backtest-fade-curves.py::fade_pct`.  The module constant
`FADE_GAMES` (100 in the source, also 100 in
`mlb-season-projections/lambda_function.py`) is the `fadeGames` parameter.
`gp >= FADE_GAMES` returns 1.0 before the curve is consulted; otherwise
`t = gp / FADE_GAMES` is fed to the selected curve. -/
noncomputable def fade_pct (fadeGames : ℕ) (gp : ℕ) (curve : FadeCurve) : ℝ :=
  if fadeGames ≤ gp then 1
  else
    let t : ℝ := (gp : ℝ) / (fadeGames : ℝ)
    match curve with
    | .linear => t
    | .cosine => 0.5 * (1 - Real.cos (Real.pi * t))
    | .sigmoid => 1 / (1 + Real.exp (-(10 : ℝ) * (t - 0.5)))
    | .quadratic => 1 - (1 - t) ^ 2

/-- The per-team blend of `scripts/backtest-fade-curves.py::regress_elo`
(line 169): `pct * cur + (1.0 - pct) * pre` with `pct = fade_pct(gp, curve)`. -/
noncomputable def blend (cur pre : ℝ) (gp fadeGames : ℕ) (curve : FadeCurve) : ℝ :=
  fade_pct fadeGames gp curve * cur + (1 - fade_pct fadeGames gp curve) * pre

end Backtest

namespace Projections

/-- `TEAM_LEAGUE` from `mlb_common/team_codes.py`: the 30 canonical team
codes with their league. -/
def TEAM_LEAGUE : List (String × String) :=
  [("BAL", "AL"), ("BOS", "AL"), ("NYY", "AL"), ("TB", "AL"), ("TOR", "AL"),
   ("CWS", "AL"), ("CLE", "AL"), ("DET", "AL"), ("KC", "AL"), ("MIN", "AL"),
   ("HOU", "AL"), ("LAA", "AL"), ("ATH", "AL"), ("SEA", "AL"), ("TEX", "AL"),
   ("ATL", "NL"), ("MIA", "NL"), ("NYM", "NL"), ("PHI", "NL"), ("WSH", "NL"),
   ("CHC", "NL"), ("CIN", "NL"), ("MIL", "NL"), ("PIT", "NL"), ("STL", "NL"),
   ("AZ", "NL"), ("COL", "NL"), ("LAD", "NL"), ("SD", "NL"), ("SF", "NL")]

/-- `TEAM_DIVISION` from `mlb_common/team_codes.py`. -/
def TEAM_DIVISION : List (String × String) :=
  [("BAL", "AL East"), ("BOS", "AL East"), ("NYY", "AL East"),
   ("TB", "AL East"), ("TOR", "AL East"),
   ("CWS", "AL Central"), ("CLE", "AL Central"), ("DET", "AL Central"),
   ("KC", "AL Central"), ("MIN", "AL Central"),
   ("HOU", "AL West"), ("LAA", "AL West"), ("ATH", "AL West"),
   ("SEA", "AL West"), ("TEX", "AL West"),
   ("ATL", "NL East"), ("MIA", "NL East"), ("NYM", "NL East"),
   ("PHI", "NL East"), ("WSH", "NL East"),
   ("CHC", "NL Central"), ("CIN", "NL Central"), ("MIL", "NL Central"),
   ("PIT", "NL Central"), ("STL", "NL Central"),
   ("AZ", "NL West"), ("COL", "NL West"), ("LAD", "NL West"),
   ("SD", "NL West"), ("SF", "NL West")]

/-- `TEAM_DIVISION.get(t, 'Unknown')`
(`mlb-season-projections/lambda_function.py` line 221). -/
def divisionOf (t : String) : String :=
  (TEAM_DIVISION.lookup t).getD "Unknown"

/-- The `teams` list of `lambda_handler`:
`sorted(set(schedule_df['homeTeam']) | set(schedule_df['awayTeam']))` for a
full-season schedule, i.e. the 30 canonical codes in Python string order. -/
def mlbTeams : List String :=
  ["ATH", "ATL", "AZ", "BAL", "BOS", "CHC", "CIN", "CLE", "COL", "CWS",
   "DET", "HOU", "KC", "LAA", "LAD", "MIA", "MIL", "MIN", "NYM", "NYY",
   "PHI", "PIT", "SD", "SEA", "SF", "STL", "TB", "TEX", "TOR", "WSH"]

/-- `al_teams = [t for t in teams if TEAM_LEAGUE.get(t) == 'AL']`
(`compute_playoff_odds`, line 218). -/
def alTeams : List String :=
  mlbTeams.filter (fun t => TEAM_LEAGUE.lookup t == some "AL")

/-- Python's `max(iterable, key=key)` on floats: scan left to right, keep
the current best, replace it only when the key is strictly greater — so
among tied keys the FIRST element is kept.  `none` models the `ValueError`
on an empty iterable. -/
noncomputable def pyMax (key : String → ℝ) : List String → Option String
  | [] => none
  | x :: xs => some (xs.foldl (fun best y => if key best < key y then y else best) x)

/-- Python's `max(iterable, key=lambda t: (k1(t), k2(t)))`: tuple keys
compare lexicographically (`(a, b) > (c, d)` iff `a > c` or
(`a = c` and `b > d`)). -/
noncomputable def pyMaxPair (k1 k2 : String → ℝ) : List String → Option String
  | [] => none
  | x :: xs => some (xs.foldl (fun best y =>
      if k1 best < k1 y ∨ (k1 y = k1 best ∧ k2 best < k2 y) then y else best) x)

/-- `winner = max(div_teams, key=lambda t: al_wins[t])`
(`compute_playoff_odds`, line 236). -/
noncomputable def divisionWinner (w : String → ℝ) (div_teams : List String) :
    Option String :=
  pyMax w div_teams

/-- One step of the dict-building
`al_divisions.setdefault(div, []).append(t)`: append `t` to the group of
division `d`, creating the group at the end when absent (Python dicts keep
insertion order). -/
def addToGroups (gs : List (String × List String)) (d : String) (t : String) :
    List (String × List String) :=
  match gs with
  | [] => [(d, [t])]
  | (d', ts) :: rest =>
      if d' = d then (d', ts ++ [t]) :: rest
      else (d', ts) :: addToGroups rest d t

/-- The `al_divisions` dict of `compute_playoff_odds` (lines 219-222):
teams grouped by `divisionOf`, groups in first-appearance order. -/
def divisionGroups (al_teams : List String) : List (String × List String) :=
  al_teams.foldl (fun gs t => addToGroups gs (divisionOf t) t) []

/-- The `div_winners` of one simulation trial (lines 234-238): one
`max`-winner per division. -/
noncomputable def divWinnersList (al_teams : List String) (w : String → ℝ) :
    List String :=
  (divisionGroups al_teams).filterMap (fun p => divisionWinner w p.2)

/-- `remaining = [(t, al_wins[t]) for t in al_teams if t not in div_winners]`
(line 241). -/
noncomputable def remainingPairs (al_teams : List String) (w : String → ℝ) :
    List (String × ℝ) :=
  (al_teams.filter (fun t => decide (t ∉ divWinnersList al_teams w))).map
    (fun t => (t, w t))

/-- `remaining.sort(key=lambda x: x[1], reverse=True)` (line 242): a stable
descending sort on the win totals. -/
noncomputable def sortedRemaining (al_teams : List String) (w : String → ℝ) :
    List (String × ℝ) :=
  (remainingPairs al_teams w).insertionSort (fun a b => b.2 < a.2)

/-- `wc_teams = {t for t, _ in remaining[:3]}` (line 243). -/
noncomputable def wcList (al_teams : List String) (w : String → ℝ) : List String :=
  ((sortedRemaining al_teams w).take 3).map Prod.fst

/-- `div_winners | wc_teams`, the playoff field of one trial (line 248). -/
noncomputable def playoffField (al_teams : List String) (w : String → ℝ) :
    Finset String :=
  (divWinnersList al_teams w).toFinset ∪ (wcList al_teams w).toFinset

/-- `if row['homeScore'] > row['awayScore']: actual_wins[home] += 1 else:
actual_wins[away] += 1` — the team credited with a completed game
(`simulate_season`, lines 159-162; ties fall into the `else` branch). -/
def gameWinner (g : Game) : String :=
  if g.homeScore.getD 0 > g.awayScore.getD 0 then g.homeTeam else g.awayTeam

/-- `completed = schedule_df.dropna(subset=['homeScore', 'awayScore'])`
(line 149). -/
def isCompleted (g : Game) : Bool :=
  g.homeScore.isSome && g.awayScore.isSome

/-- Whether a game involves team `m` (as home or away). -/
def involves (m : String) (g : Game) : Bool :=
  g.homeTeam == m || g.awayTeam == m

/-- The `actual_wins` seed (lines 157-164): completed games won by `m`. -/
def actualWins (completed : List Game) (m : String) : ℕ :=
  completed.countP (fun g => gameWinner g == m)

end Projections

namespace Projections

/-- `remaining = schedule_df[schedule_df['homeScore'].isna() |
schedule_df['awayScore'].isna()]` (`simulate_season`, line 150). -/
def isRemaining (g : Game) : Bool :=
  g.homeScore.isNone || g.awayScore.isNone

/-- `mlb-season-projections/lambda_function.py::enhanced_probability`
(lines 78-89): FIP-adjusted, shrinkage-corrected home win probability;
when the FIP data could not be loaded both adjustments are 0. -/
noncomputable def enhanced_probability (elo_home elo_away : ℝ)
    (home_pitcher_id away_pitcher_id : Option ℤ)
    (fip_dict : Option MlbCommon.FipDict) (lg_fip : Option ℝ) : ℝ :=
  let adj : ℝ × ℝ :=
    match fip_dict, lg_fip with
    | some fd, some lg =>
        MlbCommon.fip_adjustment home_pitcher_id away_pitcher_id fd lg
    | _, _ => (0, 0)
  MlbCommon.apply_shrinkage MlbCommon.PROB_SHRINKAGE
    (MlbCommon.expected_score (elo_home + adj.1) (elo_away + adj.2)
      MlbCommon.ELO_HFA)

/-- The `elo_ratings` dict handed to `simulate_season` (read-only there). -/
abbrev Ratings := List (String × ℝ)

/-- The outcome of one remaining fixture in one trial (`simulate_season`,
lines 167-183): `none` when either team is missing from `elo_ratings`
(the fixture is skipped, no counter moves); otherwise the home team wins
iff the trial's uniform draw is below `p_home_win`. -/
noncomputable def fixtureWinner (ratings : Ratings)
    (fip_dict : Option MlbCommon.FipDict) (lg_fip : Option ℝ)
    (g : Game) (draw : ℝ) : Option String :=
  match ratings.lookup g.homeTeam, ratings.lookup g.awayTeam with
  | some eh, some ea =>
      some (if draw < enhanced_probability eh ea g.homeSp g.awaySp fip_dict lg_fip
        then g.homeTeam else g.awayTeam)
  | _, _ => none

/-- One simulation trial of `simulate_season`: starting from the seeded
win counters, walk the remaining fixtures (paired with that trial's
uniform draws) and increment the winner's counter. -/
noncomputable def simulateTrial (ratings : Ratings)
    (fip_dict : Option MlbCommon.FipDict) (lg_fip : Option ℝ) :
    (String → ℕ) → List (Game × ℝ) → (String → ℕ)
  | wins, [] => wins
  | wins, (g, d) :: rest =>
      match fixtureWinner ratings fip_dict lg_fip g d with
      | some t =>
          simulateTrial ratings fip_dict lg_fip
            (fun u => if u = t then wins u + 1 else wins u) rest
      | none => simulateTrial ratings fip_dict lg_fip wins rest

end Projections

namespace EnhancedModel

/-- `ELO_INIT = 1500` (`model-2026-updates/enhanced_model.py` line 49). -/
def ELO_INIT : ℝ := 1500

/-- `FIP_WEIGHT = 50` (`enhanced_model.py` line 54). -/
def FIP_WEIGHT : ℝ := 50

/-- `FIP_PRIOR_IP = 50` (`enhanced_model.py` line 59). -/
def FIP_PRIOR_IP : ℝ := 50

/-- `home_elo = elos.get(home, ELO_INIT)`
(`enhanced_model.py::run_model`, lines 420-421): a team absent from the
rating dict silently receives the default rating `ELO_INIT`. -/
noncomputable def getElo (elos : List (String × ℝ)) (team : String) : ℝ :=
  (elos.lookup team).getD ELO_INIT

/-- The season-FIP data resolution of `run_model` (lines 439-442 for the
home side, 454-456 for the away side): `fip_by_id.get(sp_id)` first
(`dict.get(None)` is `None`), then — only when that failed and the game
carries a non-empty starter name — `fip_by_name.get(normalize_name(name))`.
`norm` stands for `normalize_name` (pure string normalisation whose
details are irrelevant here).  The resolved value is the pair
`(raw_fip, pitcher_ip)`. -/
def resolveSeasonFip (fip_by_id : List (ℤ × (ℝ × ℝ)))
    (fip_by_name : List (String × (ℝ × ℝ))) (norm : String → String)
    (sp_id : Option ℤ) (sp_name : Option String) : Option (ℝ × ℝ) :=
  match (match sp_id with
         | some i => fip_by_id.lookup i
         | none => none) with
  | some d => some d
  | none =>
      match sp_name with
      | some nm => if nm ≠ "" then fip_by_name.lookup (norm nm) else none
      | none => none

/-- The Bayesian regression applied to a resolved season FIP
(`run_model`, line 445):
`(pitcher_ip * raw_fip + FIP_PRIOR_IP * lg_fip) / (pitcher_ip + FIP_PRIOR_IP)`. -/
noncomputable def starterSeasonFip (lg_fip : ℝ) (resolved : Option (ℝ × ℝ)) :
    Option ℝ :=
  match resolved with
  | some (raw_fip, pitcher_ip) =>
      some ((pitcher_ip * raw_fip + FIP_PRIOR_IP * lg_fip) /
        (pitcher_ip + FIP_PRIOR_IP))
  | none => none

/-- The starter-FIP fallback chain of `run_model` (lines 432-445): the
rolling FIP when available (`rolling` is the result of the
`rolling_fip.get((sp_id, date))` lookup), otherwise the regressed season
FIP, otherwise nothing. -/
noncomputable def starterFip (rolling : Option ℝ) (lg_fip : ℝ)
    (resolved : Option (ℝ × ℝ)) : Option ℝ :=
  match rolling with
  | some f => some f
  | none => starterSeasonFip lg_fip resolved

/-- The starter-quality adjustment of `run_model` (lines 429-466, one
side): `(lg_fip - home_fip) * FIP_WEIGHT` when a FIP was found, the
initial `0` otherwise. -/
noncomputable def fipAdj (lg_fip : ℝ) (sf : Option ℝ) : ℝ :=
  match sf with
  | some f => (lg_fip - f) * FIP_WEIGHT
  | none => 0

end EnhancedModel

namespace FloatModel

/-- IEEE-754 double restricted to what the rating-update path needs:
a finite value or NaN.  Every arithmetic operation below propagates NaN,
as IEEE-754 does for `+`, `-`, `*`, `/`, `10.0 ** x`, `math.log` and
`abs`; Python's `min(raw, cap)` returns its first argument when it is NaN
because `cap < nan` is false. -/
inductive FVal
  | fin (x : ℝ)
  | nan

noncomputable def FVal.add : FVal → FVal → FVal
  | fin a, fin b => fin (a + b)
  | _, _ => nan

noncomputable def FVal.sub : FVal → FVal → FVal
  | fin a, fin b => fin (a - b)
  | _, _ => nan

noncomputable def FVal.mul : FVal → FVal → FVal
  | fin a, fin b => fin (a * b)
  | _, _ => nan

noncomputable def FVal.div : FVal → FVal → FVal
  | fin a, fin b => fin (a / b)
  | _, _ => nan

noncomputable def FVal.fabs : FVal → FVal
  | fin a => fin |a|
  | nan => nan

/-- `10.0 ** x` (`10 ** nan` is NaN). -/
noncomputable def FVal.pow10 : FVal → FVal
  | fin a => fin ((10 : ℝ) ^ a)
  | nan => nan

/-- `math.log` (`log(nan)` is NaN). -/
noncomputable def FVal.flog : FVal → FVal
  | fin a => fin (Real.log a)
  | nan => nan

/-- Python's `min(x, y)`: `y if y < x else x`; comparisons with NaN are
false, so `min(nan, c) = nan` and `min(a, nan) = a`. -/
noncomputable def FVal.pymin : FVal → FVal → FVal
  | fin a, fin b => fin (min a b)
  | a, _ => a

/-- `mlb_common/elo.py::expected_score` under the float model. -/
noncomputable def expectedScoreF (elo_a elo_b hfa : FVal) : FVal :=
  FVal.div (FVal.fin 1)
    (FVal.add (FVal.fin 1)
      (FVal.pow10 (FVal.div (FVal.sub elo_b (FVal.add elo_a hfa)) (FVal.fin 400))))

/-- `mlb_common/elo.py::margin_of_victory_mult` under the float model. -/
noncomputable def movMultF (movCap score_diff elo_diff : FVal) : FVal :=
  FVal.pymin
    (FVal.mul (FVal.flog (FVal.add (FVal.fabs score_diff) (FVal.fin 1)))
      (FVal.div (FVal.fin 2.2)
        (FVal.add (FVal.mul (FVal.fin 0.001) (FVal.fabs elo_diff)) (FVal.fin 2.2))))
    movCap

/-- `mlb_common/elo.py::update_elo` under the float model (K = 20). -/
noncomputable def updateEloF (expected actual mov : FVal) : FVal :=
  FVal.mul (FVal.mul (FVal.fin 20) mov) (FVal.sub actual expected)

/-- The per-game rating computation of
`mlb-elo-compute/lambda_function.py::lambda_handler` (lines 79-91) under
the float model, given the two stored ratings: returns the pair
`(team_elo[home], team_elo[away])` after the update.  There is no
finiteness check anywhere on this path. -/
noncomputable def gameUpdateF (movCap elo_home elo_away : FVal)
    (home_score away_score : ℤ) : FVal × FVal :=
  let prob_home := expectedScoreF elo_home elo_away (FVal.fin 55)
  let result_home : FVal := FVal.fin (if home_score > away_score then 1 else 0)
  let score_diff : FVal := FVal.fin |((home_score : ℝ)) - ((away_score : ℝ))|
  let mov := movMultF movCap score_diff (FVal.sub elo_home elo_away)
  let shift := updateEloF prob_home result_home mov
  (FVal.add elo_home shift, FVal.sub elo_away shift)

end FloatModel

namespace Backtest

/-- `winner = max(div_teams, key=lambda t: (al_wins[t], np.random.rand()))`
(`scripts/backtest-fade-curves.py::compute_al_playoff_odds`, line 210):
the win total first, ties broken by an auxiliary uniform draw `r`
(`np.random.rand()` evaluated once per team). -/
noncomputable def divisionWinnerRand (w r : String → ℝ)
    (div_teams : List String) : Option String :=
  Projections.pyMaxPair w r div_teams

end Backtest

/-! ### Theorems -/

/-- C3: for any raw probability `p ∈ [0,1]` and shrinkage constant
`s ∈ [0, 0.5)`, the shrunk probability `s + (1 − 2s)·p` lies in
`[s, 1 − s]`, and shrinking `p = 0.5` returns exactly `0.5`. -/
theorem shrinkage_bounds (p s : ℝ) (hp0 : 0 ≤ p) (hp1 : p ≤ 1)
    (hs0 : 0 ≤ s) (hs1 : s < 0.5) :
    s ≤ MlbCommon.apply_shrinkage s p
  ∧ MlbCommon.apply_shrinkage s p ≤ 1 - s
  ∧ MlbCommon.apply_shrinkage s (0.5 : ℝ) = 0.5 := by
  unfold MlbCommon.apply_shrinkage
  refine ⟨by nlinarith, by nlinarith, by ring⟩

/-- C3 witness: the deployed constant `s = 0.16` and the spec's scenario
probability `p = 0.7`. -/
theorem shrinkage_bounds_witness :
    (0.16 : ℝ) ≤ MlbCommon.apply_shrinkage 0.16 0.7
  ∧ MlbCommon.apply_shrinkage 0.16 0.7 ≤ 1 - 0.16
  ∧ MlbCommon.apply_shrinkage 0.16 (0.5 : ℝ) = 0.5 :=
  shrinkage_bounds 0.7 0.16 (by norm_num) (by norm_num) (by norm_num)
    (by norm_num)

/-- C1: for every game processed by the rating replay (both the backtest
replay `replay_elo_to_date` and the `mlb-elo-compute` update loop), the
home team's shift is the exact negation of the away team's shift, the sum
of the two post-game ratings equals the sum of the two pre-game ratings
exactly, and no other team's rating moves. -/
theorem zero_sum_update (movCapB : Option ℝ) (movCapE : ℝ) (d : EloDict)
    (g : Game) (hh : g.homeTeam ∈ d.keys) (ha : g.awayTeam ∈ d.keys)
    (hne : g.homeTeam ≠ g.awayTeam) :
    ((Backtest.replayStep movCapB d g).val g.homeTeam +
        (Backtest.replayStep movCapB d g).val g.awayTeam
      = d.val g.homeTeam + d.val g.awayTeam)
  ∧ ((Backtest.replayStep movCapB d g).val g.homeTeam - d.val g.homeTeam
      = -((Backtest.replayStep movCapB d g).val g.awayTeam - d.val g.awayTeam))
  ∧ (∀ t, t ≠ g.homeTeam → t ≠ g.awayTeam →
      (Backtest.replayStep movCapB d g).val t = d.val t)
  ∧ ((EloCompute.stepGame movCapE d g).val g.homeTeam +
        (EloCompute.stepGame movCapE d g).val g.awayTeam
      = d.val g.homeTeam + d.val g.awayTeam)
  ∧ ((EloCompute.stepGame movCapE d g).val g.homeTeam - d.val g.homeTeam
      = -((EloCompute.stepGame movCapE d g).val g.awayTeam - d.val g.awayTeam)) := by
  have hb : (Backtest.replayStep movCapB d g).val =
      Function.update
        (Function.update d.val g.homeTeam
          (d.val g.homeTeam +
            Backtest.elo_shift (d.val g.homeTeam)
              (Backtest.expected_score (d.val g.homeTeam) (d.val g.awayTeam)
                Backtest.HFA)
              (Backtest.actual_h (g.homeScore.getD 0) (g.awayScore.getD 0))
              (Backtest.mov_mult movCapB
                (|((g.homeScore.getD 0 : ℝ)) - ((g.awayScore.getD 0 : ℝ))|)
                (d.val g.homeTeam + Backtest.HFA - d.val g.awayTeam))))
        g.awayTeam
        (d.val g.awayTeam -
          Backtest.elo_shift (d.val g.homeTeam)
            (Backtest.expected_score (d.val g.homeTeam) (d.val g.awayTeam)
              Backtest.HFA)
            (Backtest.actual_h (g.homeScore.getD 0) (g.awayScore.getD 0))
            (Backtest.mov_mult movCapB
              (|((g.homeScore.getD 0 : ℝ)) - ((g.awayScore.getD 0 : ℝ))|)
              (d.val g.homeTeam + Backtest.HFA - d.val g.awayTeam))) := by
    unfold Backtest.replayStep
    rw [if_pos ⟨hh, ha⟩]
  have he : (EloCompute.stepGame movCapE d g).val =
      Function.update
        (Function.update d.val g.homeTeam
          (d.val g.homeTeam +
            MlbCommon.update_elo (d.val g.homeTeam)
              (MlbCommon.expected_score (d.val g.homeTeam) (d.val g.awayTeam)
                MlbCommon.ELO_HFA)
              (if g.homeScore.getD 0 > g.awayScore.getD 0 then 1 else 0)
              MlbCommon.ELO_K
              (MlbCommon.margin_of_victory_mult movCapE
                (|((g.homeScore.getD 0 : ℝ)) - ((g.awayScore.getD 0 : ℝ))|)
                (d.val g.homeTeam - d.val g.awayTeam))))
        g.awayTeam
        (d.val g.awayTeam -
          MlbCommon.update_elo (d.val g.homeTeam)
            (MlbCommon.expected_score (d.val g.homeTeam) (d.val g.awayTeam)
              MlbCommon.ELO_HFA)
            (if g.homeScore.getD 0 > g.awayScore.getD 0 then 1 else 0)
            MlbCommon.ELO_K
            (MlbCommon.margin_of_victory_mult movCapE
              (|((g.homeScore.getD 0 : ℝ)) - ((g.awayScore.getD 0 : ℝ))|)
              (d.val g.homeTeam - d.val g.awayTeam))) := by
    unfold EloCompute.stepGame EloCompute.gameUpdate
    rw [if_pos ⟨hh, ha⟩, Option.getD_some]
  rw [hb, he]
  simp only [Function.update_same, Function.update_noteq hne]
  refine ⟨by ring, by ring, ?_, by ring, by ring⟩
  intro t hth hta
  rw [Function.update_noteq hta, Function.update_noteq hth]

/-- C1 witness: a concrete two-team rating dict and a completed 5-3 game. -/
theorem zero_sum_update_witness :
    ((Backtest.replayStep none
        ⟨{"BAL", "NYY"}, fun t => if t = "BAL" then 1500 else 1510⟩
        ⟨"BAL", "NYY", some 5, some 3, none, none⟩).val "BAL" +
      (Backtest.replayStep none
        ⟨{"BAL", "NYY"}, fun t => if t = "BAL" then 1500 else 1510⟩
        ⟨"BAL", "NYY", some 5, some 3, none, none⟩).val "NYY"
      = (if ("BAL" : String) = "BAL" then (1500 : ℝ) else 1510) +
        (if ("NYY" : String) = "BAL" then (1500 : ℝ) else 1510))
  ∧ ((EloCompute.stepGame 1.25
        ⟨{"BAL", "NYY"}, fun t => if t = "BAL" then 1500 else 1510⟩
        ⟨"BAL", "NYY", some 5, some 3, none, none⟩).val "BAL" +
      (EloCompute.stepGame 1.25
        ⟨{"BAL", "NYY"}, fun t => if t = "BAL" then 1500 else 1510⟩
        ⟨"BAL", "NYY", some 5, some 3, none, none⟩).val "NYY"
      = (if ("BAL" : String) = "BAL" then (1500 : ℝ) else 1510) +
        (if ("NYY" : String) = "BAL" then (1500 : ℝ) else 1510)) :=
  ⟨(zero_sum_update none 1.25
      ⟨{"BAL", "NYY"}, fun t => if t = "BAL" then 1500 else 1510⟩
      ⟨"BAL", "NYY", some 5, some 3, none, none⟩
      (by decide) (by decide) (by decide)).1,
   (zero_sum_update none 1.25
      ⟨{"BAL", "NYY"}, fun t => if t = "BAL" then 1500 else 1510⟩
      ⟨"BAL", "NYY", some 5, some 3, none, none⟩
      (by decide) (by decide) (by decide)).2.2.2.1⟩

/-- C10: a completed game whose home score equals its away score is
credited to the AWAY team by the win-count seeding, and the replay /
update loops give the home side the actual result 0.0; the result
functions only ever produce 0 or 1, never the 0.5 tie value. -/
theorem tie_game_away_credit (g : Game) (s : ℤ) (hhs : g.homeScore = some s)
    (has : g.awayScore = some s) (hs as : ℤ) :
    Projections.gameWinner g = g.awayTeam
  ∧ Projections.actualWins [g] g.awayTeam = 1
  ∧ (g.homeTeam ≠ g.awayTeam → Projections.actualWins [g] g.homeTeam = 0)
  ∧ Backtest.actual_h s s = 0
  ∧ EloCompute.result_home s s = 0
  ∧ (Backtest.actual_h hs as = 0 ∨ Backtest.actual_h hs as = 1)
  ∧ Backtest.actual_h hs as ≠ 0.5
  ∧ (EloCompute.result_home hs as = 0 ∨ EloCompute.result_home hs as = 1)
  ∧ EloCompute.result_home hs as ≠ 0.5 := by
  have hw : Projections.gameWinner g = g.awayTeam := by
    unfold Projections.gameWinner
    rw [hhs, has]
    simp
  refine ⟨hw, ?_, ?_, ?_, ?_, ?_, ?_, ?_, ?_⟩
  · unfold Projections.actualWins
    simp [hw]
  · intro hne
    unfold Projections.actualWins
    simp [hw, hne, Ne.symm hne]
  · unfold Backtest.actual_h
    simp
  · unfold EloCompute.result_home
    simp
  · unfold Backtest.actual_h
    by_cases h : hs > as <;> simp [h]
  · unfold Backtest.actual_h
    by_cases h : hs > as <;> simp [h] <;> norm_num
  · unfold EloCompute.result_home
    by_cases h : hs > as <;> simp [h]
  · unfold EloCompute.result_home
    by_cases h : hs > as <;> simp [h] <;> norm_num

/-- C10 witness: a concrete 4-4 tie between BAL (home) and NYY (away). -/
theorem tie_game_away_credit_witness :
    Projections.gameWinner ⟨"BAL", "NYY", some 4, some 4, none, none⟩ = "NYY"
  ∧ Projections.actualWins [⟨"BAL", "NYY", some 4, some 4, none, none⟩] "NYY" = 1
  ∧ Backtest.actual_h 4 4 = 0
  ∧ EloCompute.result_home 4 4 = 0 :=
  ⟨(tie_game_away_credit ⟨"BAL", "NYY", some 4, some 4, none, none⟩ 4
      rfl rfl 4 4).1,
   (tie_game_away_credit ⟨"BAL", "NYY", some 4, some 4, none, none⟩ 4
      rfl rfl 4 4).2.1,
   (tie_game_away_credit ⟨"BAL", "NYY", some 4, some 4, none, none⟩ 4
      rfl rfl 4 4).2.2.2.1,
   (tie_game_away_credit ⟨"BAL", "NYY", some 4, some 4, none, none⟩ 4
      rfl rfl 4 4).2.2.2.2.1⟩

/-- C8: there is no finiteness validation anywhere on the rating-update
path of `mlb-elo-compute` — with a NaN home rating the per-game update
computes through NaN arithmetic and produces NaN stored ratings for BOTH
teams instead of rejecting the update. -/
theorem nan_rating_propagates :
    FloatModel.gameUpdateF (FloatModel.FVal.fin 1.25) FloatModel.FVal.nan
      (FloatModel.FVal.fin 1500) 5 3
      = (FloatModel.FVal.nan, FloatModel.FVal.nan) := by
  rfl

/-- C7 counterexample: `enhanced_model.py::run_model` (line 420,
`elos.get(home, ELO_INIT)`) silently substitutes the default rating 1500
for a team that is absent from the rating dict — the computation does not
fail with an unknown-team condition. -/
theorem default_rating_substituted :
    EnhancedModel.getElo [] "BAL" = 1500
  ∧ ([] : List (String × ℝ)).lookup "BAL" = none := by
  exact ⟨rfl, rfl⟩

/-- C7 amended: the `mlb-elo-compute` update loop skips a game (with a
warning, writing no rating and substituting nothing) when either team is
missing from the rating dict; the `enhanced_model` backtest, by contrast,
silently substitutes `ELO_INIT` for a team missing from its dict. -/
theorem unknown_team_handling (movCap : ℝ) (d : EloDict) (g : Game)
    (h : g.homeTeam ∉ d.keys ∨ g.awayTeam ∉ d.keys) :
    EloCompute.gameUpdate movCap d g = none
  ∧ EloCompute.stepGame movCap d g = d
  ∧ ∀ (elos : List (String × ℝ)) (team : String),
      elos.lookup team = none →
      EnhancedModel.getElo elos team = EnhancedModel.ELO_INIT := by
  have hnone : EloCompute.gameUpdate movCap d g = none := by
    unfold EloCompute.gameUpdate
    rw [if_neg]
    rcases h with h | h
    · exact fun hc => h hc.1
    · exact fun hc => h hc.2
  refine ⟨hnone, ?_, ?_⟩
  · unfold EloCompute.stepGame
    rw [hnone]
    rfl
  · intro elos team hlk
    unfold EnhancedModel.getElo
    rw [hlk]
    rfl

/-- C7 witness: a game whose home team BAL has no stored rating. -/
theorem unknown_team_handling_witness :
    EloCompute.gameUpdate 1.25 ⟨{"NYY"}, fun _ => 1500⟩
      ⟨"BAL", "NYY", some 2, some 1, none, none⟩ = none
  ∧ EloCompute.stepGame 1.25 ⟨{"NYY"}, fun _ => 1500⟩
      ⟨"BAL", "NYY", some 2, some 1, none, none⟩
      = ⟨{"NYY"}, fun _ => 1500⟩ :=
  ⟨(unknown_team_handling 1.25 ⟨{"NYY"}, fun _ => 1500⟩
      ⟨"BAL", "NYY", some 2, some 1, none, none⟩ (Or.inl (by decide))).1,
   (unknown_team_handling 1.25 ⟨{"NYY"}, fun _ => 1500⟩
      ⟨"BAL", "NYY", some 2, some 1, none, none⟩ (Or.inl (by decide))).2.1⟩

/-- C5 counterexample: for the pitcher table `{1 ↦ (fip 3.0, ip 50.0)}`
and league FIP 4.0, the shared `mlb_common/fip.py::fip_adjustment` gives
the home side `(4 − 3) × 50 = 50` ELO points, while the claim's formula
`(lgFIP − effectiveFIP) × fipWeight` (with the repository's
`priorIP = 50`) gives `25`: the shared implementation applies no
IP-based shrinkage to a known starter's FIP. -/
theorem fip_adjustment_no_shrinkage :
    (MlbCommon.fip_adjustment (some 1) none [(1, ⟨3, 50⟩)] 4).1 = 50
  ∧ ((4 : ℝ) - ((50 : ℝ) * 3 + EnhancedModel.FIP_PRIOR_IP * 4) /
      ((50 : ℝ) + EnhancedModel.FIP_PRIOR_IP)) * MlbCommon.FIP_WEIGHT = 25
  ∧ (50 : ℝ) ≠ 25 := by
  refine ⟨?_, ?_, by norm_num⟩
  · unfold MlbCommon.fip_adjustment MlbCommon.fip_starter
    norm_num [List.lookup, MlbCommon.FIP_WEIGHT]
  · norm_num [EnhancedModel.FIP_PRIOR_IP, MlbCommon.FIP_WEIGHT]

/-- C5 amended: in `enhanced_model.py::run_model` the season-FIP
starter-quality adjustment for a starter with resolved data `(rawFIP, IP)`
equals `(lgFIP − effectiveFIP) × FIP_WEIGHT` with
`effectiveFIP = (IP·rawFIP + priorIP·lgFIP) / (IP + priorIP)`, and an
unresolved starter contributes exactly 0; the shared
`mlb_common/fip.py::fip_adjustment` instead uses the raw FIP with no
IP-based regression for a known starter, and also contributes exactly 0
for an unknown one. -/
theorem starter_fip_adjustment (fip_by_id : List (ℤ × (ℝ × ℝ)))
    (fip_by_name : List (String × (ℝ × ℝ))) (norm : String → String)
    (sp_id : Option ℤ) (sp_name : Option String)
    (lg_fip raw_fip pitcher_ip : ℝ) (hip : 0 < pitcher_ip)
    (hres : EnhancedModel.resolveSeasonFip fip_by_id fip_by_name norm sp_id
      sp_name = some (raw_fip, pitcher_ip)) :
    EnhancedModel.fipAdj lg_fip (EnhancedModel.starterFip none lg_fip
        (EnhancedModel.resolveSeasonFip fip_by_id fip_by_name norm sp_id sp_name))
      = (lg_fip - (pitcher_ip * raw_fip + EnhancedModel.FIP_PRIOR_IP * lg_fip) /
          (pitcher_ip + EnhancedModel.FIP_PRIOR_IP)) * EnhancedModel.FIP_WEIGHT
  ∧ (∀ lg' : ℝ, EnhancedModel.fipAdj lg' (EnhancedModel.starterFip none lg' none) = 0)
  ∧ (∀ (i : ℤ) (info : MlbCommon.FipInfo) (fd : MlbCommon.FipDict) (lg' : ℝ)
      (ap : Option ℤ), i ≠ 0 → fd.lookup i = some info →
      (MlbCommon.fip_adjustment (some i) ap fd lg').1
        = (lg' - info.fip) * MlbCommon.FIP_WEIGHT)
  ∧ (∀ (fd : MlbCommon.FipDict) (lg' : ℝ) (ap : Option ℤ),
      (MlbCommon.fip_adjustment none ap fd lg').1 = 0) := by
  refine ⟨?_, ?_, ?_, ?_⟩
  · rw [hres]
    unfold EnhancedModel.starterFip EnhancedModel.starterSeasonFip
      EnhancedModel.fipAdj
    rfl
  · intro lg'
    rfl
  · intro i info fd lg' ap hi hlk
    unfold MlbCommon.fip_adjustment MlbCommon.fip_starter
    dsimp only
    rw [if_pos hi, hlk]
  · intro fd lg' ap
    unfold MlbCommon.fip_adjustment MlbCommon.fip_starter
    ring

/-- C5 witness: pitcher id 1 with season FIP 3.0 over 50 IP, league FIP 4. -/
theorem starter_fip_adjustment_witness :
    EnhancedModel.fipAdj 4 (EnhancedModel.starterFip none 4
        (EnhancedModel.resolveSeasonFip [(1, (3, 50))] [] id (some 1) none))
      = ((4 : ℝ) - ((50 : ℝ) * 3 + EnhancedModel.FIP_PRIOR_IP * 4) /
          ((50 : ℝ) + EnhancedModel.FIP_PRIOR_IP)) * EnhancedModel.FIP_WEIGHT :=
  (starter_fip_adjustment [(1, (3, 50))] [] id (some 1) none 4 3 50
    (by norm_num) rfl).1

/-- C4 counterexample: with the sigmoid curve and the source's
`FADE_GAMES = 100`, blending at `gamesPlayed = 0` does NOT return the
preseason rating: `fade_pct(0, "sigmoid") = 1/(1+e^5) ≈ 0.0067 > 0`, so
`blend(1600, 1500, 0) = 1500 + 100/(1+e^5) ≠ 1500`. -/
theorem fade_sigmoid_zero_not_preseason :
    Backtest.blend 1600 1500 0 Backtest.FADE_GAMES Backtest.FadeCurve.sigmoid
      ≠ 1500 := by
  unfold Backtest.blend Backtest.fade_pct Backtest.FADE_GAMES
  rw [if_neg (by norm_num)]
  have h5 : (-(10 : ℝ)) * (((0 : ℕ) : ℝ) / ((100 : ℕ) : ℝ) - 0.5) = 5 := by
    norm_num
  dsimp only
  rw [h5]
  have hp : 0 < 1 + Real.exp 5 := by positivity
  have hpos : 0 < 1 / (1 + Real.exp 5) := by positivity
  intro h
  nlinarith

/-- C4 amended: for every `fadeGames > 0` and every curve, blending at
`gamesPlayed ≥ fadeGames` returns exactly the current rating; blending at
`gamesPlayed = 0` returns exactly the preseason rating for the linear,
cosine and quadratic ease-out curves, but the sigmoid curve yields
`fade_pct = 1/(1+e^5) > 0` at 0 games, so its blend differs from the
preseason rating whenever the two ratings differ. -/
theorem fade_curve_boundary (fadeGames : ℕ) (hF : 0 < fadeGames)
    (cur pre : ℝ) (gp : ℕ) (hgp : fadeGames ≤ gp) :
    (∀ c : Backtest.FadeCurve, Backtest.blend cur pre gp fadeGames c = cur)
  ∧ (∀ c : Backtest.FadeCurve, c ≠ Backtest.FadeCurve.sigmoid →
      Backtest.blend cur pre 0 fadeGames c = pre)
  ∧ Backtest.fade_pct fadeGames 0 Backtest.FadeCurve.sigmoid
      = 1 / (1 + Real.exp 5)
  ∧ (cur ≠ pre →
      Backtest.blend cur pre 0 fadeGames Backtest.FadeCurve.sigmoid ≠ pre) := by
  have hnot : ¬ fadeGames ≤ 0 := by omega
  have ht0 : ((0 : ℕ) : ℝ) / ((fadeGames : ℕ) : ℝ) = 0 := by
    simp
  have hsig : Backtest.fade_pct fadeGames 0 Backtest.FadeCurve.sigmoid
      = 1 / (1 + Real.exp 5) := by
    unfold Backtest.fade_pct
    rw [if_neg hnot]
    dsimp only
    rw [ht0]
    norm_num
  refine ⟨?_, ?_, hsig, ?_⟩
  · intro c
    unfold Backtest.blend Backtest.fade_pct
    rw [if_pos hgp]
    ring
  · intro c hc
    unfold Backtest.blend Backtest.fade_pct
    rw [if_neg hnot]
    cases c with
    | linear => dsimp only; rw [ht0]; ring
    | cosine =>
        dsimp only
        rw [ht0]
        rw [mul_zero, Real.cos_zero]
        ring
    | sigmoid => exact absurd rfl hc
    | quadratic => dsimp only; rw [ht0]; ring
  · intro hcp
    unfold Backtest.blend
    rw [hsig]
    have hp : 0 < 1 + Real.exp 5 := by positivity
    have hpos : 0 < 1 / (1 + Real.exp 5) := by positivity
    have hlt : 1 / (1 + Real.exp 5) < 1 := by
      rw [div_lt_one hp]
      nlinarith [Real.exp_pos (5 : ℝ)]
    intro h
    have : (1 / (1 + Real.exp 5)) * (cur - pre) = 0 := by nlinarith
    rcases mul_eq_zero.mp this with h' | h'
    · exact absurd h' (ne_of_gt hpos)
    · exact hcp (by linarith)

/-- C4 witness: `fadeGames = 100`, 162 games played, ratings 1600/1500. -/
theorem fade_curve_boundary_witness :
    Backtest.blend 1600 1500 162 100 Backtest.FadeCurve.linear = 1600
  ∧ Backtest.blend 1600 1500 0 100 Backtest.FadeCurve.cosine = 1500
  ∧ Backtest.blend 1600 1500 0 100 Backtest.FadeCurve.sigmoid ≠ 1500 :=
  ⟨(fade_curve_boundary 100 (by norm_num) 1600 1500 162 (by norm_num)).1
      Backtest.FadeCurve.linear,
   (fade_curve_boundary 100 (by norm_num) 1600 1500 162 (by norm_num)).2.1
      Backtest.FadeCurve.cosine (by decide),
   (fade_curve_boundary 100 (by norm_num) 1600 1500 162
      (by norm_num)).2.2.2 (by norm_num)⟩

/-- Python's `max(..., key=w)` scan: the kept element is a maximiser of
`w` over the whole list, and it is the FIRST maximiser in iteration order
(the list splits as `l1 ++ kept :: l2` with everything in `l1` strictly
below the maximum). -/
theorem pyFold_max_spec (w : String → ℝ) (xs : List String) (x : String) :
    ∃ l1 l2,
      x :: xs = l1 ++ (xs.foldl (fun best y => if w best < w y then y else best) x) :: l2
    ∧ (∀ u ∈ l1, w u < w (xs.foldl (fun best y => if w best < w y then y else best) x))
    ∧ ∀ u ∈ x :: xs, w u ≤ w (xs.foldl (fun best y => if w best < w y then y else best) x) := by
  induction xs generalizing x with
  | nil => exact ⟨[], [], rfl, by simp, by simp⟩
  | cons y ys ih =>
    rw [List.foldl_cons]
    by_cases hcond : w x < w y
    · rw [if_pos hcond]
      obtain ⟨l1, l2, hsplit, hlt, hle⟩ := ih y
      have hym : w y ≤ w (ys.foldl (fun best y => if w best < w y then y else best) y) :=
        hle y (by simp)
      refine ⟨x :: l1, l2, ?_, ?_, ?_⟩
      · rw [List.cons_append, ← hsplit]
      · intro u hu
        rcases List.mem_cons.mp hu with h | h
        · subst h; exact lt_of_lt_of_le hcond hym
        · exact hlt u h
      · intro u hu
        rcases List.mem_cons.mp hu with h | h
        · subst h; exact le_of_lt (lt_of_lt_of_le hcond hym)
        · exact hle u (by rw [hsplit] at h ⊢; exact h)
    · rw [if_neg hcond]
      obtain ⟨l1, l2, hsplit, hlt, hle⟩ := ih x
      have hxm : w x ≤ w (ys.foldl (fun best y => if w best < w y then y else best) x) :=
        hle x (by simp)
      cases l1 with
      | nil =>
        simp only [List.nil_append] at hsplit
        injection hsplit with h1 h2
        refine ⟨[], y :: ys, ?_, by simp, ?_⟩
        · rw [List.nil_append, ← h1]
        · intro u hu
          rcases List.mem_cons.mp hu with h | h
          · subst h; exact hxm
          · rcases List.mem_cons.mp h with h' | h'
            · subst h'; exact le_trans (le_of_not_lt hcond) hxm
            · exact hle u (List.mem_cons_of_mem _ h')
      | cons a t =>
        simp only [List.cons_append, List.cons.injEq] at hsplit
        obtain ⟨hax, htail⟩ := hsplit
        have hlt_a : w a < w (ys.foldl (fun best y => if w best < w y then y else best) x) :=
          hlt a (by simp)
        refine ⟨a :: y :: t, l2, ?_, ?_, ?_⟩
        · rw [List.cons_append, List.cons_append, ← htail, hax]
        · intro u hu
          rcases List.mem_cons.mp hu with h | h
          · subst h; exact hlt_a
          · rcases List.mem_cons.mp h with h' | h'
            · subst h'
              calc w u ≤ w x := le_of_not_lt hcond
                _ = w a := by rw [hax]
                _ < _ := hlt_a
            · exact hlt u (List.mem_cons_of_mem _ h')
        · intro u hu
          rcases List.mem_cons.mp hu with h | h
          · subst h; exact hxm
          · rcases List.mem_cons.mp h with h' | h'
            · subst h'; exact le_trans (le_of_not_lt hcond) hxm
            · exact hle u (List.mem_cons_of_mem _ h')

/-- Lexicographic "at most" along two real keys is transitive. -/
theorem lexLe_trans {wa wb wc ra rb rc : ℝ}
    (h1 : wa < wb ∨ (wa = wb ∧ ra ≤ rb)) (h2 : wb < wc ∨ (wb = wc ∧ rb ≤ rc)) :
    wa < wc ∨ (wa = wc ∧ ra ≤ rc) := by
  rcases h1 with h1 | ⟨h1, h1r⟩ <;> rcases h2 with h2 | ⟨h2, h2r⟩
  · exact Or.inl (lt_trans h1 h2)
  · exact Or.inl (h2 ▸ h1)
  · exact Or.inl (h1 ▸ h2)
  · exact Or.inr ⟨h1.trans h2, le_trans h1r h2r⟩

/-- Python's `max(..., key=lambda t: (w t, r t))` scan: the kept element is
a member of the list and is maximal for the lexicographic order on
`(w, r)` — among teams tied on `w`, the larger auxiliary draw `r` wins. -/
theorem pyFoldPair_spec (w r : String → ℝ) (xs : List String) (x : String) :
    (xs.foldl (fun best y =>
        if w best < w y ∨ (w y = w best ∧ r best < r y) then y else best) x) ∈ x :: xs
  ∧ ∀ u ∈ x :: xs,
      w u < w (xs.foldl (fun best y =>
          if w best < w y ∨ (w y = w best ∧ r best < r y) then y else best) x)
    ∨ (w u = w (xs.foldl (fun best y =>
          if w best < w y ∨ (w y = w best ∧ r best < r y) then y else best) x)
      ∧ r u ≤ r (xs.foldl (fun best y =>
          if w best < w y ∨ (w y = w best ∧ r best < r y) then y else best) x)) := by
  induction xs generalizing x with
  | nil =>
    refine ⟨by simp, ?_⟩
    intro u hu
    rcases List.mem_cons.mp hu with h | h
    · subst h; exact Or.inr ⟨rfl, le_refl _⟩
    · simp at h
  | cons y ys ih =>
    rw [List.foldl_cons]
    by_cases hcond : w x < w y ∨ (w y = w x ∧ r x < r y)
    · rw [if_pos hcond]
      obtain ⟨hm, hle⟩ := ih y
      have hxy : w x < w y ∨ (w x = w y ∧ r x ≤ r y) := by
        rcases hcond with h | ⟨h, h'⟩
        · exact Or.inl h
        · exact Or.inr ⟨h.symm, le_of_lt h'⟩
      refine ⟨List.mem_cons_of_mem _ hm, ?_⟩
      intro u hu
      rcases List.mem_cons.mp hu with h | h
      · subst h; exact lexLe_trans hxy (hle y (by simp))
      · exact hle u h
    · rw [if_neg hcond]
      obtain ⟨hm, hle⟩ := ih x
      push_neg at hcond
      have hyx : w y < w x ∨ (w y = w x ∧ r y ≤ r x) := by
        rcases lt_or_eq_of_le hcond.1 with h | h
        · exact Or.inl h
        · exact Or.inr ⟨h, le_of_not_lt (by
            intro hr
            exact absurd hr (by simpa [h] using hcond.2))⟩
      refine ⟨?_, ?_⟩
      · rcases List.mem_cons.mp hm with h | h
        · rw [h]; simp
        · exact List.mem_cons_of_mem _ (List.mem_cons_of_mem _ h)
      · intro u hu
        rcases List.mem_cons.mp hu with h | h
        · subst h; exact hle _ (List.mem_cons_self _ _)
        · rcases List.mem_cons.mp h with h' | h'
          · subst h'
            exact lexLe_trans hyx (hle x (by simp))
          · exact hle u (List.mem_cons_of_mem _ h')

/-- C9: the two division-winner selections agree whenever the division has
a unique maximum win total; they differ only on ties, where the
season-projections `max` keeps the FIRST maximal team in iteration order
(the division list splits as `l1 ++ winner :: l2` with `l1` strictly below
the maximum) while the backtest `max` keeps the team maximising the pair
(win total, auxiliary random draw) lexicographically — i.e. the tied team
with the largest draw. -/
theorem tie_break_refinement (ds : List String) (w r : String → ℝ)
    (t : String) (ht : t ∈ ds) (hu : ∀ u ∈ ds, u ≠ t → w u < w t) :
    (Projections.divisionWinner w ds = some t
      ∧ Backtest.divisionWinnerRand w r ds = some t)
  ∧ (∀ m, Projections.divisionWinner w ds = some m →
      ∃ l1 l2, ds = l1 ++ m :: l2 ∧ (∀ u ∈ l1, w u < w m) ∧ ∀ u ∈ ds, w u ≤ w m)
  ∧ (∀ m, Backtest.divisionWinnerRand w r ds = some m →
      m ∈ ds ∧ ∀ u ∈ ds, w u < w m ∨ (w u = w m ∧ r u ≤ r m)) := by
  cases ds with
  | nil => simp at ht
  | cons x xs =>
    obtain ⟨l1, l2, hsplit, hlt, hle⟩ := pyFold_max_spec w xs x
    obtain ⟨hmem2, hle2⟩ := pyFoldPair_spec w r xs x
    have hPm : Projections.divisionWinner w (x :: xs)
        = some (xs.foldl (fun best y => if w best < w y then y else best) x) := rfl
    have hBm : Backtest.divisionWinnerRand w r (x :: xs)
        = some (xs.foldl (fun best y =>
            if w best < w y ∨ (w y = w best ∧ r best < r y) then y else best) x) := rfl
    set m1 := xs.foldl (fun best y => if w best < w y then y else best) x with hm1def
    set m2 := xs.foldl (fun best y =>
        if w best < w y ∨ (w y = w best ∧ r best < r y) then y else best) x with hm2def
    have hmem1 : m1 ∈ x :: xs := by
      rw [hsplit]
      exact List.mem_append_right _ (List.mem_cons_self _ _)
    have heq1 : m1 = t := by
      by_contra hne
      exact absurd (hle t ht) (not_le.mpr (hu m1 hmem1 hne))
    have heq2 : m2 = t := by
      by_contra hne
      rcases hle2 t ht with h | ⟨h, _⟩
      · exact absurd h (not_lt.mpr (le_of_lt (hu m2 hmem2 hne)))
      · have := hu m2 hmem2 hne
        rw [h] at this
        exact lt_irrefl _ this
    refine ⟨⟨by rw [hPm, heq1], by rw [hBm, heq2]⟩, ?_, ?_⟩
    · intro m hm
      rw [hPm, Option.some.injEq] at hm
      subst hm
      exact ⟨l1, l2, hsplit, hlt, hle⟩
    · intro m hm
      rw [hBm, Option.some.injEq] at hm
      subst hm
      exact ⟨hmem2, hle2⟩

/-- C9 witness: a two-team division where BAL has strictly more wins. -/
theorem tie_break_refinement_witness :
    Projections.divisionWinner (fun u => if u = "BAL" then (95 : ℝ) else 90)
        ["NYY", "BAL"] = some "BAL"
  ∧ Backtest.divisionWinnerRand (fun u => if u = "BAL" then (95 : ℝ) else 90)
        (fun _ => 0) ["NYY", "BAL"] = some "BAL" :=
  (tie_break_refinement ["NYY", "BAL"]
    (fun u => if u = "BAL" then (95 : ℝ) else 90) (fun _ => 0) "BAL"
    (by simp)
    (by
      intro u hu hne
      rcases List.mem_cons.mp hu with h | h
      · subst h
        simp only [if_pos rfl, if_neg (by decide : ¬("NYY" : String) = "BAL")]
        norm_num
      · rcases List.mem_cons.mp h with h' | h'
        · exact absurd h' hne
        · simp at h')).1

/-- Counting: two pointwise-disjoint Boolean predicates whose union is a
third split its count. -/
theorem countP_add_of_partition {α : Type} (l : List α) (p q pq : α → Bool)
    (h : ∀ a ∈ l, pq a = (p a || q a) ∧ (p a && q a) = false) :
    l.countP p + l.countP q = l.countP pq := by
  induction l with
  | nil => simp
  | cons a t ih =>
    have ha := h a (by simp)
    have ht := ih fun b hb => h b (List.mem_cons_of_mem _ hb)
    obtain ⟨hpq, hdisj⟩ := ha
    rw [List.countP_cons, List.countP_cons, List.countP_cons]
    rcases Bool.eq_false_or_eq_true (p a) with hp | hp <;>
      rcases Bool.eq_false_or_eq_true (q a) with hq | hq <;>
        simp only [hp, hq, Bool.or_self, Bool.or_false, Bool.false_or,
          Bool.or_true, Bool.true_or, Bool.and_self, Bool.and_false,
          Bool.false_and, Bool.true_and, Bool.and_true] at hpq hdisj
    all_goals first
      | exact Bool.noConfusion hdisj
      | (simp only [hp, hq, hpq]; simp; omega)

/-- Counting a predicate on the first components of a full-length zip is
counting it on the underlying list. -/
theorem countP_zip_fst {α β : Type} (p : α → Bool) :
    ∀ (l : List α) (ds : List β), l.length = ds.length →
      (l.zip ds).countP (fun gd => p gd.1) = l.countP p := by
  intro l
  induction l with
  | nil => intro ds _; simp
  | cons a t ih =>
    intro ds hlen
    cases ds with
    | nil => simp at hlen
    | cons d ds' =>
      rw [List.zip_cons_cons, List.countP_cons, List.countP_cons,
        ih ds' (by simpa using hlen)]

/-- The win counter computed by one simulation trial: the seed plus the
number of processed fixtures whose winner is `m`. -/
theorem simulateTrial_count (ratings : Projections.Ratings)
    (fip_dict : Option MlbCommon.FipDict) (lg_fip : Option ℝ) :
    ∀ (l : List (Game × ℝ)) (wins : String → ℕ) (m : String),
      Projections.simulateTrial ratings fip_dict lg_fip wins l m
        = wins m + l.countP (fun gd =>
            Projections.fixtureWinner ratings fip_dict lg_fip gd.1 gd.2 == some m) := by
  intro l
  induction l with
  | nil =>
    intro wins m
    simp [Projections.simulateTrial]
  | cons gd rest ih =>
    intro wins m
    obtain ⟨g, d⟩ := gd
    rw [List.countP_cons]
    rcases h : Projections.fixtureWinner ratings fip_dict lg_fip g d with _ | t
    · rw [Projections.simulateTrial, h]
      dsimp only
      rw [ih]
      simp
    · rw [Projections.simulateTrial, h]
      dsimp only
      rw [ih]
      by_cases hm : m = t
      · subst hm
        simp
        omega
      · have : ((some t == some m) : Bool) = false := by
          simp [Ne.symm hm]
        simp [hm, this]

/-- A Boolean partition fact: if `W` implies `I`, then `I` splits into the
disjoint cases `W` and `I ∧ ¬W`. -/
theorem partition_pointwise {W I : Bool} (h : W = true → I = true) :
    I = (W || (I && !W)) ∧ (W && (I && !W)) = false := by
  cases W
  · simp
  · simp [h rfl]

/-- The team credited with a completed game is one of its two teams. -/
theorem involves_of_gameWinner (g : Game) (m : String)
    (h : (Projections.gameWinner g == m) = true) :
    Projections.involves m g = true := by
  unfold Projections.gameWinner at h
  unfold Projections.involves
  by_cases hc : g.homeScore.getD 0 > g.awayScore.getD 0
  · rw [if_pos hc] at h
    simp only [h, Bool.true_or]
  · rw [if_neg hc] at h
    simp only [h, Bool.or_true]

/-- When both teams are rated, a fixture's trial winner is the home team
or the away team. -/
theorem fixtureWinner_cases (ratings : Projections.Ratings)
    (fip_dict : Option MlbCommon.FipDict) (lg_fip : Option ℝ)
    (g : Game) (d : ℝ) (hh : (ratings.lookup g.homeTeam).isSome)
    (ha : (ratings.lookup g.awayTeam).isSome) :
    Projections.fixtureWinner ratings fip_dict lg_fip g d = some g.homeTeam
  ∨ Projections.fixtureWinner ratings fip_dict lg_fip g d = some g.awayTeam := by
  unfold Projections.fixtureWinner
  obtain ⟨eh, heh⟩ := Option.isSome_iff_exists.mp hh
  obtain ⟨ea, hea⟩ := Option.isSome_iff_exists.mp ha
  rw [heh, hea]
  dsimp only
  by_cases hc : d < Projections.enhanced_probability eh ea g.homeSp g.awaySp
      fip_dict lg_fip
  · rw [if_pos hc]; exact Or.inl rfl
  · rw [if_neg hc]; exact Or.inr rfl

/-- A game is "remaining" exactly when it is not completed
(`isna ∨ isna` versus `notna ∧ notna`). -/
theorem isRemaining_eq_not_isCompleted (g : Game) :
    Projections.isRemaining g = !(Projections.isCompleted g) := by
  unfold Projections.isRemaining Projections.isCompleted
  cases g.homeScore <;> cases g.awayScore <;> rfl

/-- C6: per-trial conservation — a team's trial win counter (seeded
completed-game wins plus one increment per processed remaining fixture)
plus its complementary losses (completed games it did not win plus
remaining fixtures it did not win) equals the number of its scheduled
games, provided every remaining fixture's teams are rated. -/
theorem simulation_conservation (schedule : List Game)
    (ratings : Projections.Ratings) (fip_dict : Option MlbCommon.FipDict)
    (lg_fip : Option ℝ) (ds : List ℝ) (m : String)
    (hlen : (schedule.filter Projections.isRemaining).length = ds.length)
    (hrated : ∀ g ∈ schedule.filter Projections.isRemaining,
      (ratings.lookup g.homeTeam).isSome ∧ (ratings.lookup g.awayTeam).isSome) :
    Projections.simulateTrial ratings fip_dict lg_fip
        (Projections.actualWins (schedule.filter Projections.isCompleted))
        ((schedule.filter Projections.isRemaining).zip ds) m
      + (schedule.filter Projections.isCompleted).countP
          (fun g => Projections.involves m g && !(Projections.gameWinner g == m))
      + ((schedule.filter Projections.isRemaining).zip ds).countP
          (fun gd => Projections.involves m gd.1 &&
            !(Projections.fixtureWinner ratings fip_dict lg_fip gd.1 gd.2 == some m))
      = schedule.countP (Projections.involves m) := by
  rw [simulateTrial_count]
  have hb : (schedule.filter Projections.isCompleted).countP
        (fun g => Projections.gameWinner g == m)
      + (schedule.filter Projections.isCompleted).countP
        (fun g => Projections.involves m g && !(Projections.gameWinner g == m))
      = (schedule.filter Projections.isCompleted).countP
        (Projections.involves m) :=
    countP_add_of_partition _ _ _ _
      (fun g _ => partition_pointwise (involves_of_gameWinner g m))
  have hc : ((schedule.filter Projections.isRemaining).zip ds).countP
        (fun gd =>
          Projections.fixtureWinner ratings fip_dict lg_fip gd.1 gd.2 == some m)
      + ((schedule.filter Projections.isRemaining).zip ds).countP
        (fun gd => Projections.involves m gd.1 &&
          !(Projections.fixtureWinner ratings fip_dict lg_fip gd.1 gd.2 == some m))
      = ((schedule.filter Projections.isRemaining).zip ds).countP
        (fun gd => Projections.involves m gd.1) := by
    refine countP_add_of_partition _ _ _ _ (fun gd hgd => partition_pointwise ?_)
    intro hW
    have hmem : gd.1 ∈ schedule.filter Projections.isRemaining := by
      obtain ⟨g, d⟩ := gd
      exact (List.of_mem_zip hgd).1
    obtain ⟨hh, ha⟩ := hrated gd.1 hmem
    rcases fixtureWinner_cases ratings fip_dict lg_fip gd.1 gd.2 hh ha with
      hcase | hcase <;>
    · rw [hcase] at hW
      have := beq_iff_eq.mp hW
      unfold Projections.involves
      simp only [Option.some.injEq] at this
      rw [this]
      simp
  have hd : ((schedule.filter Projections.isRemaining).zip ds).countP
        (fun gd => Projections.involves m gd.1)
      = (schedule.filter Projections.isRemaining).countP
        (Projections.involves m) :=
    countP_zip_fst _ _ _ hlen
  have he : (schedule.filter Projections.isCompleted).countP
        (Projections.involves m)
      + (schedule.filter Projections.isRemaining).countP
        (Projections.involves m)
      = schedule.countP (Projections.involves m) := by
    rw [List.countP_filter, List.countP_filter]
    refine countP_add_of_partition _ _ _ _ (fun g _ => ?_)
    rw [isRemaining_eq_not_isCompleted]
    cases hC : Projections.isCompleted g <;>
      cases hI : Projections.involves m g <;> simp
  unfold Projections.actualWins
  omega

/-- C6 witness: one completed game (BAL 5-3 NYY) and one remaining
fixture (NYY at BOS), all three teams rated, one trial draw. -/
theorem simulation_conservation_witness :
    Projections.simulateTrial
        [("BAL", (1500 : ℝ)), ("NYY", 1510), ("BOS", 1490)] none none
        (Projections.actualWins
          (([⟨"BAL", "NYY", some 5, some 3, none, none⟩,
             ⟨"BOS", "NYY", none, none, none, none⟩] : List Game).filter
            Projections.isCompleted))
        ((([⟨"BAL", "NYY", some 5, some 3, none, none⟩,
            ⟨"BOS", "NYY", none, none, none, none⟩] : List Game).filter
            Projections.isRemaining).zip [(0.3 : ℝ)]) "NYY"
      + (([⟨"BAL", "NYY", some 5, some 3, none, none⟩,
           ⟨"BOS", "NYY", none, none, none, none⟩] : List Game).filter
          Projections.isCompleted).countP
          (fun g => Projections.involves "NYY" g &&
            !(Projections.gameWinner g == "NYY"))
      + ((([⟨"BAL", "NYY", some 5, some 3, none, none⟩,
            ⟨"BOS", "NYY", none, none, none, none⟩] : List Game).filter
            Projections.isRemaining).zip [(0.3 : ℝ)]).countP
          (fun gd => Projections.involves "NYY" gd.1 &&
            !(Projections.fixtureWinner
                [("BAL", (1500 : ℝ)), ("NYY", 1510), ("BOS", 1490)] none none
                gd.1 gd.2 == some "NYY"))
      = ([⟨"BAL", "NYY", some 5, some 3, none, none⟩,
          ⟨"BOS", "NYY", none, none, none, none⟩] : List Game).countP
          (Projections.involves "NYY") :=
  simulation_conservation
    [⟨"BAL", "NYY", some 5, some 3, none, none⟩,
     ⟨"BOS", "NYY", none, none, none, none⟩]
    [("BAL", (1500 : ℝ)), ("NYY", 1510), ("BOS", 1490)] none none
    [(0.3 : ℝ)] "NYY" rfl
    (by
      intro g hg
      have hf : ([⟨"BAL", "NYY", some 5, some 3, none, none⟩,
          ⟨"BOS", "NYY", none, none, none, none⟩] : List Game).filter
          Projections.isRemaining
          = [⟨"BOS", "NYY", none, none, none, none⟩] := rfl
      rw [hf, List.mem_singleton] at hg
      subst hg
      exact ⟨rfl, rfl⟩)

/-- The scan result of Python's `max` is a member of the scanned list. -/
theorem pyFold_mem (w : String → ℝ) (xs : List String) (x : String) :
    xs.foldl (fun best y => if w best < w y then y else best) x ∈ x :: xs := by
  obtain ⟨l1, l2, hsplit, -, -⟩ := pyFold_max_spec w xs x
  rw [hsplit]
  exact List.mem_append_right _ (List.mem_cons_self _ _)

/-- C2: for every trial (every win vector `w`), the computed AL playoff
field has exactly `divisions + W = 3 + 3 = 6` distinct teams: the three
division winners are pairwise distinct members of disjoint divisions, the
wildcard list has exactly three teams drawn from the non-winners, and a
team credited as a division winner in a trial is never also credited as a
wildcard qualifier in that same trial. -/
theorem playoff_field_size (w : String → ℝ) :
    (Projections.playoffField Projections.alTeams w).card = 6
  ∧ (Projections.divWinnersList Projections.alTeams w).length = 3
  ∧ (Projections.wcList Projections.alTeams w).length = 3
  ∧ ∀ t ∈ Projections.divWinnersList Projections.alTeams w,
      t ∉ Projections.wcList Projections.alTeams w := by
  have hal_nodup : Projections.alTeams.Nodup := by decide
  have hal_len : Projections.alTeams.length = 15 := by decide
  have hgroups : Projections.divisionGroups Projections.alTeams
      = [("AL West", ["ATH", "HOU", "LAA", "SEA", "TEX"]),
         ("AL East", ["BAL", "BOS", "NYY", "TB", "TOR"]),
         ("AL Central", ["CLE", "CWS", "DET", "KC", "MIN"])] := by decide
  have hdw : Projections.divWinnersList Projections.alTeams w
      = [(["HOU", "LAA", "SEA", "TEX"] : List String).foldl
           (fun best y => if w best < w y then y else best) "ATH",
         (["BOS", "NYY", "TB", "TOR"] : List String).foldl
           (fun best y => if w best < w y then y else best) "BAL",
         (["CWS", "DET", "KC", "MIN"] : List String).foldl
           (fun best y => if w best < w y then y else best) "CLE"] := by
    unfold Projections.divWinnersList
    rw [hgroups]
    rfl
  set m1 := (["HOU", "LAA", "SEA", "TEX"] : List String).foldl
      (fun best y => if w best < w y then y else best) "ATH" with hm1
  set m2 := (["BOS", "NYY", "TB", "TOR"] : List String).foldl
      (fun best y => if w best < w y then y else best) "BAL" with hm2
  set m3 := (["CWS", "DET", "KC", "MIN"] : List String).foldl
      (fun best y => if w best < w y then y else best) "CLE" with hm3
  have h1mem : m1 ∈ (["ATH", "HOU", "LAA", "SEA", "TEX"] : List String) :=
    pyFold_mem w _ _
  have h2mem : m2 ∈ (["BAL", "BOS", "NYY", "TB", "TOR"] : List String) :=
    pyFold_mem w _ _
  have h3mem : m3 ∈ (["CLE", "CWS", "DET", "KC", "MIN"] : List String) :=
    pyFold_mem w _ _
  have hd12 : ∀ a ∈ (["ATH", "HOU", "LAA", "SEA", "TEX"] : List String),
      a ∉ (["BAL", "BOS", "NYY", "TB", "TOR"] : List String) := by decide
  have hd13 : ∀ a ∈ (["ATH", "HOU", "LAA", "SEA", "TEX"] : List String),
      a ∉ (["CLE", "CWS", "DET", "KC", "MIN"] : List String) := by decide
  have hd23 : ∀ a ∈ (["BAL", "BOS", "NYY", "TB", "TOR"] : List String),
      a ∉ (["CLE", "CWS", "DET", "KC", "MIN"] : List String) := by decide
  have ne12 : m1 ≠ m2 := fun h => hd12 m1 h1mem (by rw [h]; exact h2mem)
  have ne13 : m1 ≠ m3 := fun h => hd13 m1 h1mem (by rw [h]; exact h3mem)
  have ne23 : m2 ≠ m3 := fun h => hd23 m2 h2mem (by rw [h]; exact h3mem)
  have nodup_dw : (Projections.divWinnersList Projections.alTeams w).Nodup := by
    rw [hdw]
    refine List.nodup_cons.mpr ⟨?_, List.nodup_cons.mpr ⟨?_, List.nodup_singleton _⟩⟩
    · simp only [List.mem_cons, List.mem_singleton, not_or]
      exact ⟨ne12, by simpa using ne13⟩
    · simpa using ne23
  have hRPlen : 12 ≤ (Projections.remainingPairs Projections.alTeams w).length := by
    unfold Projections.remainingPairs
    rw [List.length_map]
    simp only [hdw]
    have hpart :
        Projections.alTeams.countP
            (fun t => decide (t ∈ ([m1, m2, m3] : List String)))
          + Projections.alTeams.countP
            (fun t => decide (t ∉ ([m1, m2, m3] : List String)))
          = Projections.alTeams.countP (fun _ => true) :=
      countP_add_of_partition _ _ _ _ (fun a _ => by
        by_cases h : a ∈ ([m1, m2, m3] : List String) <;> simp [h])
    rw [List.countP_true, hal_len] at hpart
    have hdropped :
        Projections.alTeams.countP
          (fun t => decide (t ∈ ([m1, m2, m3] : List String))) ≤ 3 := by
      rw [List.countP_eq_length_filter]
      have hnd := hal_nodup.filter
        (fun t => decide (t ∈ ([m1, m2, m3] : List String)))
      have hsubf :
          (Projections.alTeams.filter
            (fun t => decide (t ∈ ([m1, m2, m3] : List String)))).toFinset
          ⊆ ({m1, m2, m3} : Finset String) := by
        intro a ha
        rw [List.mem_toFinset, List.mem_filter] at ha
        have h' := of_decide_eq_true ha.2
        simpa [Finset.mem_insert, Finset.mem_singleton] using h'
      calc (Projections.alTeams.filter
            (fun t => decide (t ∈ ([m1, m2, m3] : List String)))).length
          = (Projections.alTeams.filter
            (fun t => decide (t ∈ ([m1, m2, m3] : List String)))).toFinset.card :=
            (List.toFinset_card_of_nodup hnd).symm
        _ ≤ ({m1, m2, m3} : Finset String).card := Finset.card_le_card hsubf
        _ ≤ 3 := by
            have h1 := Finset.card_insert_le m1 (insert m2 ({m3} : Finset String))
            have h2 := Finset.card_insert_le m2 ({m3} : Finset String)
            simp only [Finset.card_singleton] at h1 h2 ⊢
            omega
    rw [← List.countP_eq_length_filter]
    omega
  have hperm := List.perm_insertionSort (fun a b : String × ℝ => b.2 < a.2)
    (Projections.remainingPairs Projections.alTeams w)
  have hslen : (Projections.sortedRemaining Projections.alTeams w).length
      = (Projections.remainingPairs Projections.alTeams w).length :=
    hperm.length_eq
  have hwc_len : (Projections.wcList Projections.alTeams w).length = 3 := by
    unfold Projections.wcList
    rw [List.length_map, List.length_take]
    omega
  have hmapfst : ((Projections.sortedRemaining Projections.alTeams w).map
        Prod.fst).Perm
      (Projections.alTeams.filter
        (fun t => decide (t ∉ Projections.divWinnersList Projections.alTeams w))) := by
    have h1 := hperm.map Prod.fst
    have h2 : (Projections.remainingPairs Projections.alTeams w).map Prod.fst
        = Projections.alTeams.filter
          (fun t => decide (t ∉ Projections.divWinnersList Projections.alTeams w)) := by
      unfold Projections.remainingPairs
      rw [List.map_map]
      exact List.map_id _
    rw [h2] at h1
    exact h1
  have hRLnodup : (Projections.alTeams.filter
      (fun t => decide (t ∉ Projections.divWinnersList Projections.alTeams w))).Nodup :=
    hal_nodup.filter _
  have hmapfst_nodup :
      ((Projections.sortedRemaining Projections.alTeams w).map Prod.fst).Nodup :=
    (hmapfst.nodup_iff).mpr hRLnodup
  have hwc_nodup : (Projections.wcList Projections.alTeams w).Nodup := by
    unfold Projections.wcList
    rw [List.map_take]
    exact List.Nodup.sublist (List.take_sublist 3 _) hmapfst_nodup
  have hwc_not_dw : ∀ t ∈ Projections.wcList Projections.alTeams w,
      t ∉ Projections.divWinnersList Projections.alTeams w := by
    intro t ht
    unfold Projections.wcList at ht
    rw [List.map_take] at ht
    have h1 : t ∈ (Projections.sortedRemaining Projections.alTeams w).map Prod.fst :=
      (List.take_sublist 3 _).subset ht
    have h2 := hmapfst.subset h1
    exact of_decide_eq_true (List.mem_filter.mp h2).2
  have hdisjF : Disjoint
      ((Projections.divWinnersList Projections.alTeams w).toFinset)
      ((Projections.wcList Projections.alTeams w).toFinset) := by
    rw [Finset.disjoint_left]
    intro a ha hb
    rw [List.mem_toFinset] at ha hb
    exact hwc_not_dw a hb ha
  have hdwF : (Projections.divWinnersList Projections.alTeams w).toFinset.card = 3 := by
    rw [List.toFinset_card_of_nodup nodup_dw, hdw]
    rfl
  have hwcF : (Projections.wcList Projections.alTeams w).toFinset.card = 3 := by
    rw [List.toFinset_card_of_nodup hwc_nodup]
    exact hwc_len
  refine ⟨?_, by rw [hdw]; rfl, hwc_len, fun t htdw htwc => hwc_not_dw t htwc htdw⟩
  unfold Projections.playoffField
  rw [Finset.card_union_of_disjoint hdisjF, hdwF, hwcF]
